import Mathlib

/-!
Verification development for the Aztec prover-stats repository.

The repository contains three JavaScript sources:
* `tg_bot.js` — a Telegram bot (`monitorOnce` monitoring loop) together with an
  embedded express server variant holding `RpcPool.safeCall`,
  `ProverClient.scanParticipation` and a dead cache fragment;
* an unnamed express server (`part_000`) holding `OptimizedRpcPool.callWithRetry`,
  `OptimizedProverClient.scanParticipation` (cache-backed, batched) and
  `checkWatchlist`;
* `prover.mjs` — `getActiveProvers`, an event-log balance counter.

Chain traffic is modelled by oracles: `epochCall : Option Nat` is the outcome of
`getCurrentEpoch()` through the RPC pool (`none` = the pool exhausted all
endpoints and the call threw), and `rewardCall : Nat → Option Nat` likewise for
`getSpecificProverRewardsForEpoch(epoch, prover)`.  Reward magnitudes are
`BigInt` in the source and are embedded as `Nat`.  JavaScript `Number`
subtraction on possibly-null values is embedded over `Int` with `null` coerced
to `0`, exactly as JS coerces.
-/

/-- Mutable aggregation state of both scan loops: `totalRewards` (BigInt),
`participatedCount`, and `lastEpochParticipated` (`null` = `none`). -/
structure ScanAgg where
  totalRewards : Nat
  participatedCount : Nat
  lastEpochParticipated : Option Nat
deriving DecidableEq

/-- Initial accumulator: `let totalRewards = 0n; let participatedCount = 0;
let lastEpochParticipated = null;` (both variants). -/
def initAgg : ScanAgg := ⟨0, 0, none⟩

/-- One loop body step, shared verbatim by both variants:
`if (r > 0n) { participatedCount++; totalRewards += r;
if (lastEpochParticipated === null) lastEpochParticipated = e; }`
(the optimized variant writes the last line `lastEpochParticipated ??= epochs[i]`,
which is the same operation). -/
def scanStep (acc : ScanAgg) (e r : Nat) : ScanAgg :=
  if 0 < r then
    { totalRewards := acc.totalRewards + r
      participatedCount := acc.participatedCount + 1
      lastEpochParticipated := some (acc.lastEpochParticipated.getD e) }
  else acc

/-- Aggregate a window of epochs against a (total) reward valuation, in list
order.  Both scan loops reduce to this fold on their success paths. -/
def scanWindow (f : Nat → Nat) (epochs : List Nat) : ScanAgg :=
  epochs.foldl (fun a e => scanStep a e (f e)) initAgg

/-- Epoch window of `ProverClient.scanParticipation` (tg_bot.js):
`start = Math.max(0, currentEpoch - lookback); for (let e = currentEpoch; e >= start; e--)`.
Descending list `[E, E-1, ..., max(0, E-L)]`. -/
def scannedEpochsServer (E L : Nat) : List Nat :=
  (List.range (E - (E - L) + 1)).map (fun i => E - i)

/-- Epoch window of `OptimizedProverClient.scanParticipation` (part_000):
`Array.from({ length: Math.min(lookback, currentEpoch) }, (_, i) => currentEpoch - i)`.
Descending list of `min L E` epochs starting at `E`. -/
def scannedEpochsOpt (E L : Nat) : List Nat :=
  (List.range (min L E)).map (fun i => E - i)

/-- Modelled from the spec: the claimed window
`{max(0, E-L+1), ..., E}`, i.e. the `min(lookback, currentEpoch+1)` most
recent epochs ending at `currentEpoch`, as a descending list. -/
def specClaimedWindow (E L : Nat) : List Nat :=
  (List.range (min L (E + 1))).map (fun i => E - i)

/-- Modelled from the spec: `lastEpochParticipated` is the maximum epoch of the
window with nonzero reward, or absent if there is none. -/
def specLastIsMax (f : Nat → Nat) (epochs : List Nat) : Option Nat → Prop
  | none => ∀ e ∈ epochs, f e = 0
  | some m => m ∈ epochs ∧ 0 < f m ∧ ∀ e ∈ epochs, 0 < f e → e ≤ m

section ScanAggLemmas

variable (f : Nat → Nat)

lemma foldl_scanStep_total (l : List Nat) (acc : ScanAgg) :
    (l.foldl (fun a e => scanStep a e (f e)) acc).totalRewards =
      acc.totalRewards + (l.map f).sum := by
  induction l generalizing acc with
  | nil => simp
  | cons e t ih =>
    simp only [List.foldl_cons, List.map_cons, List.sum_cons, ih]
    unfold scanStep
    by_cases h : 0 < f e
    · simp [h]; omega
    · have hz : f e = 0 := by omega
      simp [h, hz]

lemma foldl_scanStep_count (l : List Nat) (acc : ScanAgg) :
    (l.foldl (fun a e => scanStep a e (f e)) acc).participatedCount =
      acc.participatedCount + l.countP (fun e => decide (0 < f e)) := by
  induction l generalizing acc with
  | nil => simp
  | cons e t ih =>
    simp only [List.foldl_cons, List.countP_cons, ih]
    unfold scanStep
    by_cases h : 0 < f e
    · simp [h]; omega
    · simp [h]

lemma foldl_scanStep_last (l : List Nat) (acc : ScanAgg) :
    (l.foldl (fun a e => scanStep a e (f e)) acc).lastEpochParticipated =
      (acc.lastEpochParticipated.or (l.find? (fun e => decide (0 < f e)))) := by
  induction l generalizing acc with
  | nil => simp
  | cons e t ih =>
    simp only [List.foldl_cons, ih]
    unfold scanStep
    by_cases h : 0 < f e
    · simp only [h, if_pos, List.find?_cons, decide_eq_true h]
      cases acc.lastEpochParticipated <;> simp [Option.getD, Option.or]
    · have : (decide (0 < f e)) = false := by simpa using h
      simp [h, List.find?_cons, this]

lemma scanWindow_total (l : List Nat) : (scanWindow f l).totalRewards = (l.map f).sum := by
  unfold scanWindow
  rw [foldl_scanStep_total]
  simp [initAgg]

lemma scanWindow_count (l : List Nat) :
    (scanWindow f l).participatedCount = l.countP (fun e => decide (0 < f e)) := by
  unfold scanWindow
  rw [foldl_scanStep_count]
  simp [initAgg]

lemma scanWindow_last (l : List Nat) :
    (scanWindow f l).lastEpochParticipated = l.find? (fun e => decide (0 < f e)) := by
  unfold scanWindow
  rw [foldl_scanStep_last]
  rfl

/-- On a strictly descending list, the first hit of `find?` is the maximum hit. -/
lemma find?_desc_max {p : Nat → Bool} {l : List Nat} (h : l.Pairwise (· > ·)) {m : Nat}
    (hf : l.find? p = some m) : m ∈ l ∧ p m = true ∧ ∀ e ∈ l, p e = true → e ≤ m := by
  induction l with
  | nil => simp at hf
  | cons a t ih =>
    rcases List.pairwise_cons.1 h with ⟨ha, ht⟩
    rw [List.find?_cons] at hf
    cases hpa : p a with
    | true =>
      rw [hpa] at hf
      simp only at hf
      cases hf
      refine ⟨List.mem_cons_self _ _, hpa, ?_⟩
      intro e he _
      rcases List.mem_cons.1 he with rfl | het
      · exact Nat.le_refl _
      · exact Nat.le_of_lt (ha e het)
    | false =>
      rw [hpa] at hf
      simp only at hf
      rcases ih ht hf with ⟨hm, hpm, hmax⟩
      refine ⟨List.mem_cons_of_mem _ hm, hpm, ?_⟩
      intro e he hpe
      rcases List.mem_cons.1 he with rfl | het
      · rw [hpa] at hpe; cases hpe
      · exact hmax e het hpe

lemma scanWindow_last_spec (l : List Nat) (h : l.Pairwise (· > ·)) :
    specLastIsMax f l (scanWindow f l).lastEpochParticipated := by
  rw [scanWindow_last]
  cases hf : l.find? (fun e => decide (0 < f e)) with
  | none =>
    simp only [specLastIsMax]
    intro e he
    have := List.find?_eq_none.1 hf e he
    simpa using this
  | some m =>
    rcases find?_desc_max h hf with ⟨hm, hpm, hmax⟩
    refine ⟨hm, by simpa using hpm, ?_⟩
    intro e he hfe
    exact hmax e he (by simpa using hfe)

end ScanAggLemmas

section WindowLemmas

/-- Descending windows `[E, E-1, ..., E-n+1]` are strictly decreasing when they
do not cross zero. -/
lemma window_pairwise (E n : Nat) (h : n ≤ E + 1) :
    ((List.range n).map (fun i => E - i)).Pairwise (· > ·) := by
  rw [List.pairwise_map]
  refine (List.pairwise_lt_range n).imp_of_mem ?_
  intro a b ha hb hab
  have ha2 : a < n := List.mem_range.1 ha
  have hb2 : b < n := List.mem_range.1 hb
  omega

lemma window_mem (E n e : Nat) (h : n ≤ E + 1) :
    e ∈ (List.range n).map (fun i => E - i) ↔ E + 1 - n ≤ e ∧ e ≤ E ∧ 0 < n := by
  simp only [List.mem_map, List.mem_range]
  constructor
  · rintro ⟨i, hi, rfl⟩
    omega
  · rintro ⟨h1, h2, h3⟩
    exact ⟨E - e, by omega, by omega⟩

lemma scannedEpochsServer_pairwise (E L : Nat) : (scannedEpochsServer E L).Pairwise (· > ·) :=
  window_pairwise E _ (by omega)

lemma scannedEpochsOpt_pairwise (E L : Nat) : (scannedEpochsOpt E L).Pairwise (· > ·) :=
  window_pairwise E _ (by omega)

lemma scannedEpochsServer_mem (E L e : Nat) :
    e ∈ scannedEpochsServer E L ↔ E - L ≤ e ∧ e ≤ E := by
  rw [scannedEpochsServer, window_mem E _ e (by omega)]
  omega

lemma scannedEpochsOpt_mem (E L e : Nat) :
    e ∈ scannedEpochsOpt E L ↔ E - min L E < e ∧ e ≤ E := by
  rw [scannedEpochsOpt, window_mem E _ e (by omega)]
  omega

lemma scannedEpochsServer_nodup (E L : Nat) : (scannedEpochsServer E L).Nodup :=
  (scannedEpochsServer_pairwise E L).imp (fun h => Nat.ne_of_gt h)

lemma scannedEpochsOpt_nodup (E L : Nat) : (scannedEpochsOpt E L).Nodup :=
  (scannedEpochsOpt_pairwise E L).imp (fun h => Nat.ne_of_gt h)

end WindowLemmas

/-- One logical chain call, for the call traces of the scan embeddings. -/
inductive ChainCall where
  | currentEpoch : ChainCall
  | reward : Nat → ChainCall
deriving DecidableEq

/-- Error outcomes of a scan.  `exhaustedEndpoints` is a throw of the RPC pool
after trying all its endpoints (or its retry budget); `invalidBytes` is the
throw of `ethers.zeroPadValue(prover, 32)` on a non-hex participant while
encoding a reward call; `invalidAddress` is the throw of
`ethers.getAddress(prover)` while building the result object. -/
inductive ScanError where
  | exhaustedEndpoints : ScanError
  | invalidBytes : ScanError
  | invalidAddress : ScanError
deriving DecidableEq

/-- Result record of both scan variants.  The normalized participant string
(`ethers.getAddress(prover)`, whose success is modelled by the `addrOk` oracle)
and the timing field (`fetchedAt` / `fetchTime`) are omitted. -/
structure ScanResult where
  currentEpoch : Nat
  lastEpochParticipated : Option Nat
  participatedCountWindow : Nat
  totalRewardsWindow : Nat
  isActiveNow : Bool
  window : Nat
deriving DecidableEq

/-- Projection discarding the error payload of an `Except`. -/
def okValue {ε α : Type} : Except ε α → Option α
  | Except.ok a => some a
  | Except.error _ => none

/-- Success of `ethers.zeroPadValue(prover, 32)`: the argument must be a
`BytesLike` of at most 32 bytes, i.e. `0x` followed by an even number
(at most 64) of hexadecimal digits. -/
def isHexBytes32 (s : String) : Bool :=
  match s.data with
  | '0' :: 'x' :: rest =>
      rest.all (fun c =>
        (('0' ≤ c) && (c ≤ '9')) || (('a' ≤ c) && (c ≤ 'f')) || (('A' ≤ c) && (c ≤ 'F')))
        && (rest.length % 2 == 0) && (rest.length ≤ 64)
  | _ => false

namespace ProverClient

/-- Body of the scan loop of `ProverClient.scanParticipation` (tg_bot.js):
each iteration encodes the reward call (which throws on a non-hex `prover`
before any network traffic for that epoch), issues it through the pool (a pool
throw aborts the whole loop — there is no catch), and folds the decoded reward
into the accumulator.  Returns the outcome and the reward calls issued. -/
def scanLoop (prover : String) (rewardCall : Nat → Option Nat) :
    List Nat → ScanAgg → Except ScanError ScanAgg × List ChainCall
  | [], acc => (Except.ok acc, [])
  | e :: es, acc =>
    if isHexBytes32 prover then
      match rewardCall e with
      | none => (Except.error ScanError.exhaustedEndpoints, [ChainCall.reward e])
      | some r =>
        let rest := scanLoop prover rewardCall es (scanStep acc e r)
        (rest.1, ChainCall.reward e :: rest.2)
    else (Except.error ScanError.invalidBytes, [])

/-- Result object built at the end of `ProverClient.scanParticipation`.
`isActiveNow` is `currentEpoch - lastEpochParticipated < 6` computed with
JavaScript coercion: a `null` `lastEpochParticipated` coerces to `0`. -/
def mkResult (E L : Nat) (agg : ScanAgg) : ScanResult :=
  { currentEpoch := E
    lastEpochParticipated := agg.lastEpochParticipated
    participatedCountWindow := agg.participatedCount
    totalRewardsWindow := agg.totalRewards
    isActiveNow := decide ((E : Int) - (agg.lastEpochParticipated.elim 0 (fun l => (l : Int))) < 6)
    window := L }

/-- Embedding of `ProverClient.scanParticipation(prover, lookback)` (tg_bot.js,
server part): fetch the current epoch (one chain call, a pool throw
propagates), loop over `[E, ..., max(0, E-L)]`, then build the result; building
it evaluates `ethers.getAddress(prover)`, whose success is the `addrOk` oracle.
Returns the outcome and the full chain-call trace. -/
def scanParticipation (prover : String) (addrOk : String → Bool)
    (epochCall : Option Nat) (rewardCall : Nat → Option Nat) (L : Nat) :
    Except ScanError ScanResult × List ChainCall :=
  match epochCall with
  | none => (Except.error ScanError.exhaustedEndpoints, [ChainCall.currentEpoch])
  | some E =>
    match scanLoop prover rewardCall (scannedEpochsServer E L) initAgg with
    | (Except.error s, tr) => (Except.error s, ChainCall.currentEpoch :: tr)
    | (Except.ok agg, tr) =>
      if addrOk prover then (Except.ok (mkResult E L agg), ChainCall.currentEpoch :: tr)
      else (Except.error ScanError.invalidAddress, ChainCall.currentEpoch :: tr)

end ProverClient

/-- TTL of the optimized server's NodeCache, in seconds (`CACHE_TTL = 60`). -/
def CACHE_TTL : Nat := 60

/-- NodeCache state of the optimized server: association list from the cache
key `scan-${prover}-${lookback}` (embedded as the pair `(prover, lookback)`)
to the stored result and its expiry instant. -/
def Cache : Type := List ((String × Nat) × Nat × ScanResult)

/-- Lookup: a stored entry is served while `now` is before its expiry
(NodeCache `stdTTL` expiration, not sliding). -/
def cacheGet (c : Cache) (now : Nat) (k : String × Nat) : Option ScanResult :=
  match c.find? (fun e => e.1 == k) with
  | some (_, exp, v) => if now < exp then some v else none
  | none => none

/-- Store: `cache.set(key, value)` with expiry `now + CACHE_TTL`. -/
def cachePut (c : Cache) (now : Nat) (k : String × Nat) (v : ScanResult) : Cache :=
  (k, now + CACHE_TTL, v) :: c.filter (fun e => !(e.1 == k))

namespace OptimizedProverClient

/-- Result object of `OptimizedProverClient.scanParticipation`: here
`isActiveNow` guards the `null` case explicitly
(`lastEpochParticipated !== null && currentEpoch - lastEpochParticipated < 6`). -/
def mkResult (E L : Nat) (agg : ScanAgg) : ScanResult :=
  { currentEpoch := E
    lastEpochParticipated := agg.lastEpochParticipated
    participatedCountWindow := agg.participatedCount
    totalRewardsWindow := agg.totalRewards
    isActiveNow := match agg.lastEpochParticipated with
      | none => false
      | some l => decide ((E : Int) - (l : Int) < 6)
    window := L }

/-- Embedding of `OptimizedProverClient.scanParticipation(prover, lookback)`
(part_000): serve from cache if fresh (zero chain calls); otherwise fetch the
current epoch, batch-query the window — `getBatchRewards` maps every failed
reward call to `"0x0"`, i.e. `0`, via `.catch(() => "0x0")`, and batch slicing
preserves epoch order — aggregate, build the result (the `ethers.getAddress`
throw is the `addrOk` oracle; the `ethers.zeroPadValue` hex check throws while
encoding the first batch, so only when the window is nonempty), and cache it.
Returns the outcome, the updated cache and the chain-call trace. -/
def scanParticipation (c : Cache) (now : Nat) (prover : String) (addrOk : String → Bool)
    (epochCall : Option Nat) (rewardCall : Nat → Option Nat) (L : Nat) :
    Except ScanError ScanResult × Cache × List ChainCall :=
  match cacheGet c now (prover, L) with
  | some cached => (Except.ok cached, c, [])
  | none =>
    match epochCall with
    | none => (Except.error ScanError.exhaustedEndpoints, c, [ChainCall.currentEpoch])
    | some E =>
      let epochs := scannedEpochsOpt E L
      if !epochs.isEmpty && !isHexBytes32 prover then
        (Except.error ScanError.invalidBytes, c, [ChainCall.currentEpoch])
      else
        let agg := scanWindow (fun e => (rewardCall e).getD 0) epochs
        if addrOk prover then
          let res := mkResult E L agg
          (Except.ok res, cachePut c now (prover, L) res,
            ChainCall.currentEpoch :: epochs.map ChainCall.reward)
        else
          (Except.error ScanError.invalidAddress, c,
            ChainCall.currentEpoch :: epochs.map ChainCall.reward)

end OptimizedProverClient

/-- Shared retry skeleton of both pools.  `ep j` is the outcome of attempting
endpoint `j` (`none` = timeout or transport error), `N` the number of
configured endpoints, `i` the current endpoint index and `r` the remaining
attempt budget.  On failure the pool rotates round-robin
(`(i + 1) % N`) and retries while budget remains.  Returns the final outcome
and the list of endpoint indices attempted, in order. -/
def poolCall {R : Type} (ep : Nat → Option R) (N : Nat) : Nat → Nat → Option R × List Nat
  | _, 0 => (none, [])
  | i, r + 1 =>
    match ep i with
    | some v => (some v, [i])
    | none =>
      if r = 0 then (none, [i])
      else
        let rest := poolCall ep N ((i + 1) % N) r
        (rest.1, i :: rest.2)

namespace RpcPool

/-- Embedding of `RpcPool.safeCall(req, attempt)` (tg_bot.js): attempts start
at `attempt = 0`; on a throw with `attempt < urls.length - 1` the pool rotates
and recurses, otherwise the error surfaces.  Total budget: `N` attempts. -/
def safeCall {R : Type} (ep : Nat → Option R) (N i : Nat) : Option R × List Nat :=
  poolCall ep N i N

end RpcPool

namespace OptimizedRpcPool

/-- Embedding of `OptimizedRpcPool.callWithRetry(req, retries = 3)` (part_000):
`for (let i = 0; i < retries; i++)` with rotation before every retry except the
last.  The budget is the hardcoded `retries = 3`, independent of the number of
configured endpoints. -/
def callWithRetry {R : Type} (ep : Nat → Option R) (N i : Nat) : Option R × List Nat :=
  poolCall ep N i 3

end OptimizedRpcPool

section PoolLemmas

variable {R : Type}

lemma poolCall_succ (ep : Nat → Option R) (N i r : Nat) :
    poolCall ep N i (r + 1) =
      match ep i with
      | some v => (some v, [i])
      | none =>
        if r = 0 then (none, [i])
        else ((poolCall ep N ((i + 1) % N) r).1, i :: (poolCall ep N ((i + 1) % N) r).2) := by
  rfl

lemma poolCall_tried_len (ep : Nat → Option R) (N : Nat) :
    ∀ (r i : Nat), (poolCall ep N i r).2.length ≤ r := by
  intro r
  induction r with
  | zero => intro i; simp [poolCall]
  | succ r ih =>
    intro i
    rw [poolCall_succ]
    cases ep i with
    | some v => simp
    | none =>
      by_cases hr : r = 0
      · simp [hr]
      · rw [if_neg hr]
        have := ih ((i + 1) % N)
        simp only [List.length_cons]
        omega

lemma cons_range_map (i N n : Nat) (hi : i < N) :
    (i :: (List.range n).map (fun t => ((i + 1) % N + t) % N)) =
      (List.range (n + 1)).map (fun t => (i + t) % N) := by
  rw [List.range_succ_eq_map, List.map_cons, List.map_map]
  congr 1
  · simp [Nat.mod_eq_of_lt hi]
  · refine List.map_congr_left ?_
    intro t _
    simp only [Function.comp_apply]
    rw [Nat.mod_add_mod]
    congr 1
    omega

lemma poolCall_tried_eq (ep : Nat → Option R) (N : Nat) (hN : 0 < N) :
    ∀ (r i : Nat), i < N →
      (poolCall ep N i r).2 =
        (List.range (poolCall ep N i r).2.length).map (fun t => (i + t) % N) := by
  intro r
  induction r with
  | zero => intro i _; simp [poolCall]
  | succ r ih =>
    intro i hi
    rw [poolCall_succ]
    cases ep i with
    | some v =>
      simp [List.range_succ_eq_map, Nat.mod_eq_of_lt hi]
    | none =>
      by_cases hr : r = 0
      · simp [hr, List.range_succ_eq_map, Nat.mod_eq_of_lt hi]
      · rw [if_neg hr]
        have hrec := ih ((i + 1) % N) (Nat.mod_lt _ hN)
        simp only [List.length_cons]
        conv_lhs => rw [hrec]
        exact cons_range_map i N _ hi

lemma poolCall_none_len (ep : Nat → Option R) (N : Nat) :
    ∀ (r i : Nat), (poolCall ep N i r).1 = none → (poolCall ep N i r).2.length = r := by
  intro r
  induction r with
  | zero => intro i _; simp [poolCall]
  | succ r ih =>
    intro i h
    cases hep : ep i with
    | some v => simp [poolCall_succ, hep] at h
    | none =>
      simp only [poolCall_succ, hep] at h ⊢
      by_cases hr : r = 0
      · simp [hr]
      · rw [if_neg hr] at h ⊢
        simp only [List.length_cons]
        have := ih ((i + 1) % N) (by simpa using h)
        omega

lemma poolCall_all_none (ep : Nat → Option R) (N : Nat) (hall : ∀ j, j < N → ep j = none)
    (hN : 0 < N) : ∀ (r i : Nat), i < N → (poolCall ep N i r).1 = none := by
  intro r
  induction r with
  | zero => intro i _; simp [poolCall]
  | succ r ih =>
    intro i hi
    rw [poolCall_succ, hall i hi]
    by_cases hr : r = 0
    · simp [hr]
    · rw [if_neg hr]
      exact ih ((i + 1) % N) (Nat.mod_lt _ hN)

lemma poolCall_ok_mem (ep : Nat → Option R) (N : Nat) {v : R} :
    ∀ (r i : Nat), (poolCall ep N i r).1 = some v →
      ∃ j, j ∈ (poolCall ep N i r).2 ∧ ep j = some v := by
  intro r
  induction r with
  | zero => intro i h; simp [poolCall] at h
  | succ r ih =>
    intro i h
    cases hep : ep i with
    | some w =>
      simp only [poolCall_succ, hep] at h ⊢
      have hw : w = v := by simpa using h
      exact ⟨i, by simp, by rw [hep, hw]⟩
    | none =>
      simp only [poolCall_succ, hep] at h ⊢
      by_cases hr : r = 0
      · rw [if_pos hr] at h
        simp at h
      · rw [if_neg hr] at h ⊢
        rcases ih ((i + 1) % N) (by simpa using h) with ⟨j, hj, hjv⟩
        exact ⟨j, by simp [hj], hjv⟩

lemma range_map_mod_nodup (i N k : Nat) (hk : k ≤ N) :
    ((List.range k).map (fun t => (i + t) % N)).Nodup := by
  rcases Nat.eq_zero_or_pos N with rfl | hN
  · have hk0 : k = 0 := by omega
    subst hk0
    simp
  · rw [List.nodup_map_iff_inj_on (List.nodup_range k)]
    intro a ha b hb hab
    have ha2 : a < k := List.mem_range.1 ha
    have hb2 : b < k := List.mem_range.1 hb
    have hmod : a ≡ b [MOD N] := Nat.ModEq.add_left_cancel' i hab
    have : a % N = b % N := hmod
    rw [Nat.mod_eq_of_lt (by omega), Nat.mod_eq_of_lt (by omega)] at this
    exact this

end PoolLemmas

/-- Watchlist entry of the optimized server
(`watchlist.set(chatId, { prover, lastNotifiedEpoch: null })`). -/
structure WatchEntry where
  prover : String
  lastNotifiedEpoch : Option Nat
deriving DecidableEq

/-- Idle-epoch count of `checkWatchlist`:
`stats.lastEpochParticipated === null ? currentEpoch : currentEpoch - stats.lastEpochParticipated`.
Computed over `Int`, as JS numbers admit negative differences. -/
def idleEpochs (E : Nat) (lp : Option Nat) : Int :=
  match lp with
  | none => (E : Int)
  | some l => (E : Int) - (l : Int)

/-- Alert condition of `checkWatchlist`:
`idleEpochs >= 6 && entry.lastNotifiedEpoch !== currentEpoch`, with a failed
scan (`scanRes = none`, the catch branch) producing no alert. -/
def shouldAlert (E : Nat) (scanRes : Option (Option Nat)) (en : WatchEntry) : Bool :=
  match scanRes with
  | none => false
  | some lp => decide (6 ≤ idleEpochs E lp) && decide (en.lastNotifiedEpoch ≠ some E)

/-- Per-entry step of `checkWatchlist`: on alert, log and
`watchlist.set(chatId, { ...entry, lastNotifiedEpoch: currentEpoch })`.
Returns (alert-emitted?, updated entry). -/
def sweepEntry (E : Nat) (scanRes : Option (Option Nat)) (en : WatchEntry) :
    Bool × WatchEntry :=
  match scanRes with
  | none => (false, en)
  | some lp =>
    if 6 ≤ idleEpochs E lp ∧ en.lastNotifiedEpoch ≠ some E then
      (true, { en with lastNotifiedEpoch := some E })
    else (false, en)

/-- Embedding of one sweep of `checkWatchlist(client)` (part_000): the current
epoch is fetched once; every entry is scanned via the cache-backed
`scanParticipation`, whose outcome is the oracle
`scan : prover → Option (Option Nat)` (`none` = the scan threw and the entry is
skipped, `some lp` = it returned with `lastEpochParticipated = lp`).  Returns
the updated watchlist (a JS `Map`, keyed by `chatId`) and the chatIds alerted,
in iteration order. -/
def checkWatchlist (E : Nat) (scan : String → Option (Option Nat))
    (wl : List (String × WatchEntry)) : List (String × WatchEntry) × List String :=
  (wl.map (fun p => (p.1, (sweepEntry E (scan p.2.prover) p.2).2)),
   (wl.filter (fun p => (sweepEntry E (scan p.2.prover) p.2).1)).map (fun p => p.1))

/-- Messages sent by the bot's monitoring loop. -/
inductive BotMessage where
  | noParticipation : String → String → BotMessage
  | idleAlert : String → String → BotMessage
deriving DecidableEq

/-- Per-address body of `monitorOnce` (tg_bot.js): fetch the status text and
parse `Last Epoch Participated: <digits>` out of it; the oracle
`statusOf addr` is `none` when the fetch threw (the address is skipped),
`some lp` when it yielded a text whose parsed last epoch is `lp`.  A `null`
last epoch sends a no-participation message; otherwise an idle alert is sent
when `idleEpochs >= THRESH_IDLE`.  Nothing is recorded about having alerted. -/
def monitorAddr (thresh E : Nat) (statusOf : String → Option (Option Nat))
    (cid addr : String) : Option BotMessage :=
  match statusOf addr with
  | none => none
  | some none => some (BotMessage.noParticipation cid addr)
  | some (some l) => if (thresh : Int) ≤ (E : Int) - (l : Int)
      then some (BotMessage.idleAlert cid addr) else none

/-- Embedding of one sweep of `monitorOnce` (tg_bot.js): iterate every
`(chatId, proverAddresses)` watchlist entry and every address in it, sending
the messages of `monitorAddr`.  The bot keeps no `lastNotifiedEpoch` state:
the sweep reads nothing but the watchlist and writes nothing. -/
def monitorOnce (thresh E : Nat) (statusOf : String → Option (Option Nat))
    (wl : List (String × List String)) : List BotMessage :=
  wl.foldr (fun p acc => p.2.filterMap (monitorAddr thresh E statusOf p.1) ++ acc) []

lemma key_unique {β : Type} {l : List (String × β)} (h : (l.map Prod.fst).Nodup)
    {a : String} {b c : β} (hb : (a, b) ∈ l) (hc : (a, c) ∈ l) : b = c := by
  induction l with
  | nil => simp at hb
  | cons x t ih =>
    rw [List.map_cons, List.nodup_cons] at h
    rcases List.mem_cons.1 hb with rfl | hbt
    · rcases List.mem_cons.1 hc with hcc | hct
      · exact (congrArg Prod.snd hcc).symm
      · exact absurd (List.mem_map_of_mem Prod.fst hct) (by simpa using h.1)
    · rcases List.mem_cons.1 hc with rfl | hct
      · exact absurd (List.mem_map_of_mem Prod.fst hbt) (by simpa using h.1)
      · exact ih h.2 hbt hct

/-- Number of binary digits of `n`, fuel-bounded (fuel 1024 covers every value
a JavaScript double can hold, far above the `uint256` event amounts). -/
def bitLenAux : Nat → Nat → Nat
  | 0, _ => 0
  | fuel + 1, n => if n = 0 then 0 else bitLenAux fuel (n / 2) + 1

/-- Bit length of a natural number (`0` has bit length `0`). -/
def bitLen (n : Nat) : Nat := bitLenAux 1024 n

/-- Round a natural number to the nearest IEEE-754 double (binary64), ties to
even — every integer-valued double of magnitude `2^52` or more is an integer
multiple of a power of two with a 53-bit significand, so rounding an integer
to the nearest double is rounding to 53 significant bits.  Integers below
`2^53` are exactly representable.  Overflow to infinity (`≥ ~2^1024`) is
outside the modelled range. -/
def flNat (n : Nat) : Nat :=
  if n < 2 ^ 53 then n
  else
    let s := bitLen n - 53
    let q := n / 2 ^ s
    let r := n % 2 ^ s
    let half := 2 ^ (s - 1)
    let q2 := if r < half then q else if half < r then q + 1
      else if q % 2 = 0 then q else q + 1
    q2 * 2 ^ s

/-- Round an integer to the nearest double (rounding is symmetric). -/
def flInt (z : Int) : Int :=
  if z < 0 then -(flNat z.natAbs : Int) else (flNat z.natAbs : Int)

/-- JavaScript `Number(bigint)` on a non-negative amount. -/
def jsNumber (n : Nat) : Int := (flNat n : Int)

/-- JavaScript `+` on integer-valued doubles: exact sum, rounded. -/
def jsAdd (a b : Int) : Int := flInt (a + b)

/-- JavaScript `-` on integer-valued doubles: exact difference, rounded. -/
def jsSub (a b : Int) : Int := flInt (a - b)

/-- JavaScript `String.prototype.toLowerCase` on the ASCII addresses
involved: per-character lowercasing. -/
def jsToLower (s : String) : String := String.mk (s.data.map Char.toLower)

/-- JS `Map.prototype.get`: first (unique) binding of the key. -/
def mapGet (m : List (String × Int)) (k : String) : Option Int :=
  (m.find? (fun p => p.1 == k)).map (fun p => p.2)

/-- JS `Map.prototype.set`: update in place if the key is present, else append
(JS Maps preserve insertion order). -/
def mapSet (m : List (String × Int)) (k : String) (v : Int) : List (String × Int) :=
  if m.any (fun p => p.1 == k) then
    m.map (fun p => if p.1 == k then (k, v) else p)
  else m ++ [(k, v)]

/-- One event application of `getActiveProvers` (prover.mjs):
`balances.set(addr, (balances.get(addr) || 0) op Number(log.args.amount))`
with `addr = log.args.user.toLowerCase()` and `op` double-precision `+` or `-`. -/
def stepEvent (op : Int → Int → Int) (m : List (String × Int)) (ev : String × Nat) :
    List (String × Int) :=
  let addr := jsToLower ev.1
  mapSet m addr (op ((mapGet m addr).getD 0) (jsNumber ev.2))

/-- Embedding of `getActiveProvers()` (prover.mjs).  The three
`contract.queryFilter` results are the oracles `staked`, `withdrawn`,
`slashed` : lists of `(address, amount)` event pairs in log order.  All
`Staked` amounts are added, then all `Withdrawn` and all `ProverSlashed`
amounts subtracted, each through `Number(...)` (double precision), and the
strictly positive balances are counted. -/
def getActiveProvers (staked withdrawn slashed : List (String × Nat)) : Nat :=
  let m1 := staked.foldl (stepEvent jsAdd) []
  let m2 := withdrawn.foldl (stepEvent jsSub) m1
  let m3 := slashed.foldl (stepEvent jsSub) m2
  ((m3.map (fun p => p.2)).filter (fun b => decide (0 < b))).length

/-- Per-address balance as `getActiveProvers` computes it: the address's own
events in order, through the same double-precision operations. -/
def jsNet (a : String) (staked withdrawn slashed : List (String × Nat)) : Int :=
  let b1 := (staked.filter (fun ev => jsToLower ev.1 == a)).foldl
    (fun c ev => jsAdd c (jsNumber ev.2)) 0
  let b2 := (withdrawn.filter (fun ev => jsToLower ev.1 == a)).foldl
    (fun c ev => jsSub c (jsNumber ev.2)) b1
  (slashed.filter (fun ev => jsToLower ev.1 == a)).foldl
    (fun c ev => jsSub c (jsNumber ev.2)) b2

/-- Modelled from the claim: exact-integer net balance of an address — the sum
of its Staked amounts minus its Withdrawn amounts minus its ProverSlashed
amounts, with no rounding. -/
def exactNet (a : String) (staked withdrawn slashed : List (String × Nat)) : Int :=
  ((staked.filter (fun ev => jsToLower ev.1 == a)).map (fun ev => (ev.2 : Int))).sum
    - ((withdrawn.filter (fun ev => jsToLower ev.1 == a)).map (fun ev => (ev.2 : Int))).sum
    - ((slashed.filter (fun ev => jsToLower ev.1 == a)).map (fun ev => (ev.2 : Int))).sum

/-- Distinct lowercased addresses occurring in the event logs. -/
def eventAddrs (staked withdrawn slashed : List (String × Nat)) : List String :=
  (((staked ++ withdrawn) ++ slashed).map (fun ev => jsToLower ev.1)).dedup

/-- Modelled from the claim: the number of distinct lowercased addresses whose
exact-integer net balance is strictly positive. -/
def claimActiveCount (staked withdrawn slashed : List (String × Nat)) : Nat :=
  (eventAddrs staked withdrawn slashed).countP
    (fun a => decide (0 < exactNet a staked withdrawn slashed))

section BalanceMapLemmas

lemma any_key_iff (m : List (String × Int)) (k : String) :
    m.any (fun p => p.1 == k) = true ↔ k ∈ m.map (fun p => p.1) := by
  rw [List.any_eq_true]
  constructor
  · rintro ⟨p, hp, hpk⟩
    exact List.mem_map.2 ⟨p, hp, (beq_iff_eq.1 hpk)⟩
  · rintro h
    rcases List.mem_map.1 h with ⟨p, hp, rfl⟩
    exact ⟨p, hp, beq_iff_eq.2 rfl⟩

lemma mapGet_cons_eq (t : List (String × Int)) (q : String × Int) {k : String} (h : q.1 = k) :
    mapGet (q :: t) k = some q.2 := by
  have hb : (q.1 == k) = true := beq_iff_eq.2 h
  unfold mapGet
  simp [List.find?_cons, hb]

lemma mapGet_cons_ne (t : List (String × Int)) (q : String × Int) {k : String} (h : q.1 ≠ k) :
    mapGet (q :: t) k = mapGet t k := by
  have hb : (q.1 == k) = false := beq_eq_false_iff_ne.2 h
  unfold mapGet
  simp [List.find?_cons, hb]

lemma mapGet_map_replace (m : List (String × Int)) {k k2 : String} (v : Int) (h : k2 ≠ k) :
    mapGet (m.map (fun p => if p.1 == k then (k, v) else p)) k2 = mapGet m k2 := by
  induction m with
  | nil => rfl
  | cons p t ih =>
    rw [List.map_cons]
    by_cases hp : p.1 = k
    · rw [if_pos (beq_iff_eq.2 hp)]
      rw [mapGet_cons_ne _ _ (show (k, v).1 ≠ k2 from fun hc => h hc.symm)]
      rw [mapGet_cons_ne _ _ (show p.1 ≠ k2 from by rw [hp]; exact fun hc => h hc.symm)]
      exact ih
    · rw [if_neg (by simpa using hp)]
      by_cases hpk2 : p.1 = k2
      · rw [mapGet_cons_eq _ _ hpk2, mapGet_cons_eq _ _ hpk2]
      · rw [mapGet_cons_ne _ _ hpk2, mapGet_cons_ne _ _ hpk2]
        exact ih

lemma mapGet_mapSet_self (m : List (String × Int)) (k : String) (v : Int) :
    mapGet (mapSet m k v) k = some v := by
  unfold mapSet
  by_cases ha : m.any (fun p => p.1 == k) = true
  · rw [if_pos ha]
    induction m with
    | nil => simp at ha
    | cons p t ih =>
      rw [List.map_cons]
      by_cases hp : p.1 = k
      · rw [if_pos (beq_iff_eq.2 hp)]
        exact mapGet_cons_eq _ _ rfl
      · have hta : t.any (fun p => p.1 == k) = true := by
          rw [List.any_cons] at ha
          rcases Bool.or_eq_true_iff.1 ha with hc | hc
          · exact absurd (beq_iff_eq.1 hc) hp
          · exact hc
        rw [if_neg (by simpa using hp), mapGet_cons_ne _ _ hp]
        exact ih hta
  · rw [if_neg ha]
    unfold mapGet
    rw [List.find?_append]
    have hnone : m.find? (fun p => p.1 == k) = none := by
      rw [List.find?_eq_none]
      intro p hp hc
      exact ha (List.any_eq_true.2 ⟨p, hp, hc⟩)
    rw [hnone]
    have hb : ((k, v).1 == k) = true := beq_iff_eq.2 rfl
    simp [List.find?_cons, hb]

lemma mapGet_mapSet_ne (m : List (String × Int)) {k k2 : String} (v : Int) (h : k2 ≠ k) :
    mapGet (mapSet m k v) k2 = mapGet m k2 := by
  unfold mapSet
  by_cases ha : m.any (fun p => p.1 == k) = true
  · rw [if_pos ha]
    exact mapGet_map_replace m v h
  · rw [if_neg ha]
    unfold mapGet
    rw [List.find?_append]
    have hb : ((k, v).1 == k2) = false := beq_eq_false_iff_ne.2 (fun hc => h hc.symm)
    have hsing : List.find? (fun p => p.1 == k2) [(k, v)] = none := by
      simp [List.find?_cons, hb]
    rw [hsing]
    cases m.find? (fun p => p.1 == k2) <;> rfl

lemma foldl_stepEvent_get (op : Int → Int → Int) (evs : List (String × Nat))
    (m : List (String × Int)) (a : String) :
    (mapGet (evs.foldl (stepEvent op) m) a).getD 0 =
      (evs.filter (fun ev => jsToLower ev.1 == a)).foldl
        (fun c ev => op c (jsNumber ev.2)) ((mapGet m a).getD 0) := by
  induction evs generalizing m with
  | nil => simp
  | cons ev t ih =>
    rw [List.foldl_cons, List.filter_cons]
    by_cases hk : jsToLower ev.1 = a
    · rw [if_pos (beq_iff_eq.2 hk), ih, List.foldl_cons]
      have hget : (mapGet (stepEvent op m ev) a).getD 0 =
          op ((mapGet m a).getD 0) (jsNumber ev.2) := by
        unfold stepEvent
        rw [hk, mapGet_mapSet_self]
        rfl
      rw [hget]
    · rw [if_neg (by simpa using hk), ih]
      have hget : mapGet (stepEvent op m ev) a = mapGet m a := by
        unfold stepEvent
        exact mapGet_mapSet_ne _ _ (fun hc => hk hc.symm)
      rw [hget]

lemma keys_mapSet (m : List (String × Int)) (k : String) (v : Int) :
    (mapSet m k v).map (fun p => p.1) =
      if k ∈ m.map (fun p => p.1) then m.map (fun p => p.1)
      else m.map (fun p => p.1) ++ [k] := by
  unfold mapSet
  by_cases ha : m.any (fun p => p.1 == k) = true
  · rw [if_pos ha, if_pos ((any_key_iff m k).1 ha), List.map_map]
    refine List.map_congr_left ?_
    intro p _
    simp only [Function.comp_apply]
    by_cases hp : p.1 = k
    · rw [if_pos (beq_iff_eq.2 hp)]
      exact hp.symm
    · rw [if_neg (by simpa using hp)]
  · have hmem : k ∉ m.map (fun p => p.1) := fun hc => ha ((any_key_iff m k).2 hc)
    rw [if_neg ha, if_neg hmem, List.map_append]
    rfl

lemma keys_stepEvent (op : Int → Int → Int) (m : List (String × Int)) (ev : String × Nat) :
    (stepEvent op m ev).map (fun p => p.1) =
      if jsToLower ev.1 ∈ m.map (fun p => p.1) then m.map (fun p => p.1)
      else m.map (fun p => p.1) ++ [jsToLower ev.1] := by
  unfold stepEvent
  exact keys_mapSet m _ _

lemma keys_foldl_nodup (op : Int → Int → Int) (evs : List (String × Nat))
    (m : List (String × Int)) (h : (m.map (fun p => p.1)).Nodup) :
    ((evs.foldl (stepEvent op) m).map (fun p => p.1)).Nodup := by
  induction evs generalizing m with
  | nil => simpa using h
  | cons ev t ih =>
    rw [List.foldl_cons]
    refine ih _ ?_
    rw [keys_stepEvent]
    by_cases hm : jsToLower ev.1 ∈ m.map (fun p => p.1)
    · rwa [if_pos hm]
    · rw [if_neg hm, List.nodup_append]
      refine ⟨h, List.nodup_singleton _, ?_⟩
      intro y hy hy2
      rw [List.mem_singleton] at hy2
      subst hy2
      exact hm hy

lemma keys_foldl_mem (op : Int → Int → Int) (evs : List (String × Nat))
    (m : List (String × Int)) (a : String) :
    a ∈ (evs.foldl (stepEvent op) m).map (fun p => p.1) ↔
      a ∈ m.map (fun p => p.1) ∨ a ∈ evs.map (fun ev => jsToLower ev.1) := by
  induction evs generalizing m with
  | nil => simp
  | cons ev t ih =>
    rw [List.foldl_cons, ih, keys_stepEvent, List.map_cons, List.mem_cons]
    by_cases hm : jsToLower ev.1 ∈ m.map (fun p => p.1)
    · rw [if_pos hm]
      constructor
      · rintro (h | h)
        · exact Or.inl h
        · exact Or.inr (Or.inr h)
      · rintro (h | rfl | h)
        · exact Or.inl h
        · exact Or.inl hm
        · exact Or.inr h
    · rw [if_neg hm, List.mem_append, List.mem_singleton]
      tauto

lemma countP_values (m : List (String × Int)) (h : (m.map (fun p => p.1)).Nodup)
    (p : Int → Bool) :
    (m.map (fun q => q.2)).countP p =
      (m.map (fun q => q.1)).countP (fun a => p ((mapGet m a).getD 0)) := by
  induction m with
  | nil => simp
  | cons q t ih =>
    rw [List.map_cons, List.map_cons, List.countP_cons, List.countP_cons]
    rw [List.map_cons, List.nodup_cons] at h
    have hq : (mapGet (q :: t) q.1).getD 0 = q.2 := by
      rw [mapGet_cons_eq _ _ rfl]
      rfl
    rw [hq]
    have ht : (t.map (fun q => q.1)).countP (fun a => p ((mapGet (q :: t) a).getD 0)) =
        (t.map (fun q => q.1)).countP (fun a => p ((mapGet t a).getD 0)) := by
      refine List.countP_congr ?_
      intro a ha
      rw [mapGet_cons_ne _ _ (fun hc => h.1 (hc ▸ ha))]
    rw [ht, ih h.2]

end BalanceMapLemmas

section ScanPathLemmas

lemma scanLoop_success (prover : String) (rc : Nat → Option Nat)
    (es : List Nat) (acc : ScanAgg) (hhex : isHexBytes32 prover = true)
    (hall : ∀ e ∈ es, (rc e).isSome) :
    ProverClient.scanLoop prover rc es acc =
      (Except.ok (es.foldl (fun a e => scanStep a e ((rc e).getD 0)) acc),
       es.map ChainCall.reward) := by
  induction es generalizing acc with
  | nil => rfl
  | cons e t ih =>
    have he : (rc e).isSome := hall e (List.mem_cons_self _ _)
    rcases Option.isSome_iff_exists.1 he with ⟨r, hr⟩
    simp only [ProverClient.scanLoop, hhex, if_true, hr]
    rw [ih _ (fun x hx => hall x (List.mem_cons_of_mem _ hx))]
    simp [hr]

lemma scanLoop_badhex (prover : String) (rc : Nat → Option Nat) (e : Nat) (es : List Nat)
    (acc : ScanAgg) (hhex : isHexBytes32 prover = false) :
    ProverClient.scanLoop prover rc (e :: es) acc =
      (Except.error ScanError.invalidBytes, []) := by
  simp [ProverClient.scanLoop, hhex]

lemma scanServer_ok (prover : String) (addrOk : String → Bool) (rc : Nat → Option Nat)
    (E L : Nat) (hall : ∀ e ∈ scannedEpochsServer E L, (rc e).isSome)
    (hhex : isHexBytes32 prover = true) (haddr : addrOk prover = true) :
    ProverClient.scanParticipation prover addrOk (some E) rc L =
      (Except.ok (ProverClient.mkResult E L
         (scanWindow (fun e => (rc e).getD 0) (scannedEpochsServer E L))),
       ChainCall.currentEpoch :: (scannedEpochsServer E L).map ChainCall.reward) := by
  simp only [ProverClient.scanParticipation,
    scanLoop_success prover rc _ initAgg hhex hall, haddr, if_true]
  rfl

lemma cacheGet_nil (now : Nat) (k : String × Nat) : cacheGet [] now k = none := rfl

lemma scanOpt_ok (now : Nat) (prover : String) (addrOk : String → Bool)
    (rc : Nat → Option Nat) (E L : Nat)
    (hhex : isHexBytes32 prover = true) (haddr : addrOk prover = true) :
    OptimizedProverClient.scanParticipation [] now prover addrOk (some E) rc L =
      (Except.ok (OptimizedProverClient.mkResult E L
         (scanWindow (fun e => (rc e).getD 0) (scannedEpochsOpt E L))),
       cachePut [] now (prover, L)
         (OptimizedProverClient.mkResult E L
           (scanWindow (fun e => (rc e).getD 0) (scannedEpochsOpt E L))),
       ChainCall.currentEpoch :: (scannedEpochsOpt E L).map ChainCall.reward) := by
  simp only [OptimizedProverClient.scanParticipation, cacheGet_nil, hhex, haddr,
    Bool.not_true, Bool.and_false, Bool.false_and, Bool.if_false_left, if_true]
  simp

end ScanPathLemmas

/-- C1: the claim states the scanned epoch set is exactly
`{max(0, E-L+1), ..., E}`.  It is not: for `E = 50`, `L = 10` the tg_bot.js
variant also queries epoch `40` (its window is `{max(0, E-L), ..., E}`, one
epoch more than claimed), and for `E = 2`, `L = 5` the optimized variant never
queries epoch `0` although the claimed set contains it (its window holds
`min(L, E)` epochs and stops at epoch `1`). -/
theorem C1_counterexample :
    (40 ∈ scannedEpochsServer 50 10 ∧ 40 ∉ specClaimedWindow 50 10) ∧
    (0 ∈ specClaimedWindow 2 5 ∧ 0 ∉ scannedEpochsOpt 2 5) := by
  decide

/-- C1 (amended): for every lookback `L` and fetched current epoch `E`, the
tg_bot.js variant queries exactly the epoch set `{max(0, E-L), ..., E}` and the
optimized variant exactly the `min(L, E)` epochs `{E - min(L, E) + 1, ..., E}`;
in both variants no epoch is queried twice, and on a fully successful scan the
reward queries issued are exactly those windows (the embedding of batch
slicing preserves the queried set for every batch size). -/
theorem C1_window_exact :
    (∀ E L e, (e ∈ scannedEpochsServer E L ↔ E - L ≤ e ∧ e ≤ E) ∧
       (e ∈ scannedEpochsOpt E L ↔ E - min L E < e ∧ e ≤ E)) ∧
    (∀ E L, (scannedEpochsServer E L).Nodup ∧ (scannedEpochsOpt E L).Nodup) ∧
    (∀ E L (prover : String) (addrOk : String → Bool) (rc : Nat → Option Nat) (now : Nat),
       (∀ e ∈ scannedEpochsServer E L, (rc e).isSome) →
       isHexBytes32 prover = true → addrOk prover = true →
       (ProverClient.scanParticipation prover addrOk (some E) rc L).2 =
           ChainCall.currentEpoch :: (scannedEpochsServer E L).map ChainCall.reward ∧
       (OptimizedProverClient.scanParticipation [] now prover addrOk (some E) rc L).2.2 =
           ChainCall.currentEpoch :: (scannedEpochsOpt E L).map ChainCall.reward) := by
  refine ⟨fun E L e => ⟨scannedEpochsServer_mem E L e, scannedEpochsOpt_mem E L e⟩,
    fun E L => ⟨scannedEpochsServer_nodup E L, scannedEpochsOpt_nodup E L⟩,
    fun E L prover addrOk rc now hall hhex haddr => ?_⟩
  constructor
  · rw [scanServer_ok prover addrOk rc E L hall hhex haddr]
  · rw [scanOpt_ok now prover addrOk rc E L hhex haddr]

/-- C1 witness: a concrete fully-successful scan (`E = 5`, `L = 3`) whose
traces are exactly the two windows. -/
theorem C1_window_exact_witness :
    (ProverClient.scanParticipation ("0xab") (fun _ => true) (some 5) (fun _ => some 1) 3).2 =
        ChainCall.currentEpoch :: (scannedEpochsServer 5 3).map ChainCall.reward ∧
    (OptimizedProverClient.scanParticipation [] 0 ("0xab") (fun _ => true)
        (some 5) (fun _ => some 1) 3).2.2 =
        ChainCall.currentEpoch :: (scannedEpochsOpt 5 3).map ChainCall.reward := by
  exact (C1_window_exact.2.2 5 3 ("0xab") (fun _ => true) (fun _ => some 1) 0
    (by intro e he; rfl) (by decide) rfl)

/-- C2: the claim requires `isActiveNow = false` whenever
`lastEpochParticipated` is absent.  The tg_bot.js variant computes
`currentEpoch - lastEpochParticipated < 6` without a null guard, and JS coerces
`null` to `0`: at `currentEpoch = 3` with every reward in the window zero it
returns `lastEpochParticipated = null` yet `isActiveNow = (3 - 0 < 6) = true`.
The optimized variant guards the null case explicitly
(`lastEpochParticipated !== null && ...`) and returns `false` on the same
input, matching the claim — the spec is the evident intent and the tg_bot.js
computation a slip. -/
theorem C2_null_coercion_bug :
    okValue (ProverClient.scanParticipation ("0xab") (fun _ => true) (some 3)
        (fun _ => some 0) 10).1 =
      some { currentEpoch := 3, lastEpochParticipated := none,
             participatedCountWindow := 0, totalRewardsWindow := 0,
             isActiveNow := true, window := 10 } ∧
    okValue (OptimizedProverClient.scanParticipation [] 0 ("0xab") (fun _ => true)
        (some 3) (fun _ => some 0) 10).1 =
      some { currentEpoch := 3, lastEpochParticipated := none,
             participatedCountWindow := 0, totalRewardsWindow := 0,
             isActiveNow := false, window := 10 } := by
  constructor <;> rfl

lemma okValue_eq_some {ε α : Type} {x : Except ε α} {a : α} :
    okValue x = some a ↔ x = Except.ok a := by
  cases x <;> simp [okValue]

lemma scanLoop_ok_inv (prover : String) (rc : Nat → Option Nat) :
    ∀ (es : List Nat) (acc agg : ScanAgg) (tr : List ChainCall),
      ProverClient.scanLoop prover rc es acc = (Except.ok agg, tr) →
      agg = es.foldl (fun a e => scanStep a e ((rc e).getD 0)) acc := by
  intro es
  induction es with
  | nil =>
    intro acc agg tr h
    have := congrArg Prod.fst h
    simpa [ProverClient.scanLoop] using this.symm
  | cons e t ih =>
    intro acc agg tr h
    by_cases hhex : isHexBytes32 prover = true
    · simp only [ProverClient.scanLoop, hhex, if_true] at h
      cases hre : rc e with
      | none =>
        simp only [hre] at h
        have := congrArg Prod.fst h
        simp at this
      | some r =>
        simp only [hre] at h
        rcases hl : ProverClient.scanLoop prover rc t (scanStep acc e r) with ⟨fst, tr2⟩
        rw [hl] at h
        have h1 := congrArg Prod.fst h
        simp only at h1
        rw [List.foldl_cons]
        have := ih (scanStep acc e r) agg tr2 (by rw [hl, h1])
        rw [this, hre]
        rfl
    · have hf : isHexBytes32 prover = false := by simpa using hhex
      simp only [ProverClient.scanLoop, hf, Bool.false_eq_true, if_false] at h
      have := congrArg Prod.fst h
      simp at this

lemma scanServer_ok_inv (prover : String) (addrOk : String → Bool) (rc : Nat → Option Nat)
    (E L : Nat) (res : ScanResult)
    (h : (ProverClient.scanParticipation prover addrOk (some E) rc L).1 = Except.ok res) :
    res = ProverClient.mkResult E L
      (scanWindow (fun e => (rc e).getD 0) (scannedEpochsServer E L)) := by
  simp only [ProverClient.scanParticipation] at h
  rcases hloop : ProverClient.scanLoop prover rc (scannedEpochsServer E L) initAgg
    with ⟨fst, tr⟩
  rw [hloop] at h
  cases fst with
  | error s => simp at h
  | ok agg =>
    by_cases haddr : addrOk prover = true
    · simp only [haddr, if_true] at h
      have hagg := scanLoop_ok_inv prover rc _ initAgg agg tr hloop
      have hres : ProverClient.mkResult E L agg = res := by
        simpa using h
      rw [← hres, hagg]
      rfl
    · simp only [Bool.not_eq_true] at haddr
      simp [haddr] at h

lemma scanOpt_ok_inv (now : Nat) (prover : String) (addrOk : String → Bool)
    (rc : Nat → Option Nat) (E L : Nat) (res : ScanResult)
    (h : (OptimizedProverClient.scanParticipation [] now prover addrOk
        (some E) rc L).1 = Except.ok res) :
    res = OptimizedProverClient.mkResult E L
      (scanWindow (fun e => (rc e).getD 0) (scannedEpochsOpt E L)) := by
  simp only [OptimizedProverClient.scanParticipation] at h
  by_cases hcond : (!(scannedEpochsOpt E L).isEmpty && !isHexBytes32 prover) = true
  · simp only [cacheGet_nil, hcond, if_true] at h
    simp at h
  · have hc2 : (!(scannedEpochsOpt E L).isEmpty && !isHexBytes32 prover) = false := by
      simpa using hcond
    simp only [cacheGet_nil, hc2, Bool.false_eq_true, if_false] at h
    by_cases haddr : addrOk prover = true
    · simp only [haddr, if_true] at h
      simpa using h.symm
    · simp only [Bool.not_eq_true] at haddr
      simp [haddr] at h

/-- C7: for every completed scan of either variant, `lastEpochParticipated` is
the maximum epoch of the scanned window with nonzero reward, and is `none`
exactly when every epoch of the window has zero reward (the loops visit the
window in descending epoch order and keep the first nonzero hit). -/
theorem C7_last_is_max_nonzero (prover : String) (addrOk : String → Bool)
    (rc : Nat → Option Nat) (E L now : Nat) :
    (∀ res, okValue (ProverClient.scanParticipation prover addrOk (some E) rc L).1 = some res →
       specLastIsMax (fun e => (rc e).getD 0) (scannedEpochsServer E L)
         res.lastEpochParticipated) ∧
    (∀ res, okValue (OptimizedProverClient.scanParticipation [] now prover addrOk
        (some E) rc L).1 = some res →
       specLastIsMax (fun e => (rc e).getD 0) (scannedEpochsOpt E L)
         res.lastEpochParticipated) := by
  constructor
  · intro res h
    have hres := scanServer_ok_inv prover addrOk rc E L res (okValue_eq_some.1 h)
    rw [hres]
    exact scanWindow_last_spec _ _ (scannedEpochsServer_pairwise E L)
  · intro res h
    have hres := scanOpt_ok_inv now prover addrOk rc E L res (okValue_eq_some.1 h)
    rw [hres]
    exact scanWindow_last_spec _ _ (scannedEpochsOpt_pairwise E L)

/-- Concrete reward oracle: epoch 4 pays 2 wei, everything else zero, every
call succeeds. -/
def rcW : Nat → Option Nat := fun e => some (if e = 4 then 2 else 0)

/-- C7 witness: at `E = 5`, `L = 3` with reward only at epoch 4, both variants
report `lastEpochParticipated = 4`, the maximum nonzero epoch of their
windows. -/
theorem C7_last_is_max_nonzero_witness :
    specLastIsMax (fun e => (rcW e).getD 0) (scannedEpochsServer 5 3) (some 4) ∧
    specLastIsMax (fun e => (rcW e).getD 0) (scannedEpochsOpt 5 3) (some 4) := by
  have h := C7_last_is_max_nonzero ("0xab") (fun _ => true) rcW 5 3 0
  exact ⟨h.1 { currentEpoch := 5, lastEpochParticipated := some 4,
                participatedCountWindow := 1, totalRewardsWindow := 2,
                isActiveNow := true, window := 3 } (by rfl),
         h.2 { currentEpoch := 5, lastEpochParticipated := some 4,
                participatedCountWindow := 1, totalRewardsWindow := 2,
                isActiveNow := true, window := 3 } (by rfl)⟩

/-- C8: for every completed scan of either variant, `totalRewardsWindow` is the
exact integer sum of the per-epoch rewards over the scanned window (the
embedding sums over `Nat`, as the source sums over `BigInt` — no rounding, no
64-bit overflow), and `participatedCountWindow` is the number of epochs of the
window with nonzero reward. -/
theorem C8_window_aggregates (prover : String) (addrOk : String → Bool)
    (rc : Nat → Option Nat) (E L now : Nat) :
    (∀ res, okValue (ProverClient.scanParticipation prover addrOk (some E) rc L).1 = some res →
       res.totalRewardsWindow = ((scannedEpochsServer E L).map (fun e => (rc e).getD 0)).sum ∧
       res.participatedCountWindow =
         (scannedEpochsServer E L).countP (fun e => decide (0 < (rc e).getD 0))) ∧
    (∀ res, okValue (OptimizedProverClient.scanParticipation [] now prover addrOk
        (some E) rc L).1 = some res →
       res.totalRewardsWindow = ((scannedEpochsOpt E L).map (fun e => (rc e).getD 0)).sum ∧
       res.participatedCountWindow =
         (scannedEpochsOpt E L).countP (fun e => decide (0 < (rc e).getD 0))) := by
  constructor
  · intro res h
    have hres := scanServer_ok_inv prover addrOk rc E L res (okValue_eq_some.1 h)
    rw [hres]
    exact ⟨scanWindow_total _ _, scanWindow_count _ _⟩
  · intro res h
    have hres := scanOpt_ok_inv now prover addrOk rc E L res (okValue_eq_some.1 h)
    rw [hres]
    exact ⟨scanWindow_total _ _, scanWindow_count _ _⟩

/-- C8 witness: the concrete scan of the C7 witness has window sum 2 and
nonzero count 1 in both variants. -/
theorem C8_window_aggregates_witness :
    (2 = ((scannedEpochsServer 5 3).map (fun e => (rcW e).getD 0)).sum ∧
     1 = (scannedEpochsServer 5 3).countP (fun e => decide (0 < (rcW e).getD 0))) ∧
    (2 = ((scannedEpochsOpt 5 3).map (fun e => (rcW e).getD 0)).sum ∧
     1 = (scannedEpochsOpt 5 3).countP (fun e => decide (0 < (rcW e).getD 0))) := by
  have h := C8_window_aggregates ("0xab") (fun _ => true) rcW 5 3 0
  exact ⟨h.1 { currentEpoch := 5, lastEpochParticipated := some 4,
                participatedCountWindow := 1, totalRewardsWindow := 2,
                isActiveNow := true, window := 3 } (by rfl),
         h.2 { currentEpoch := 5, lastEpochParticipated := some 4,
                participatedCountWindow := 1, totalRewardsWindow := 2,
                isActiveNow := true, window := 3 } (by rfl)⟩

lemma scanLoop_ok_all_some (prover : String) (rc : Nat → Option Nat) :
    ∀ (es : List Nat) (acc agg : ScanAgg) (tr : List ChainCall),
      ProverClient.scanLoop prover rc es acc = (Except.ok agg, tr) →
      ∀ e ∈ es, (rc e).isSome := by
  intro es
  induction es with
  | nil => intro acc agg tr _ e he; simp at he
  | cons e t ih =>
    intro acc agg tr h x hx
    by_cases hhex : isHexBytes32 prover = true
    · simp only [ProverClient.scanLoop, hhex, if_true] at h
      cases hre : rc e with
      | none =>
        simp only [hre] at h
        have := congrArg Prod.fst h
        simp at this
      | some r =>
        simp only [hre] at h
        rcases List.mem_cons.1 hx with rfl | hxt
        · simp [hre]
        · rcases hl : ProverClient.scanLoop prover rc t (scanStep acc e r) with ⟨fst, tr2⟩
          rw [hl] at h
          have h1 := congrArg Prod.fst h
          simp only at h1
          exact ih (scanStep acc e r) agg tr2 (by rw [hl, h1]) x hxt
    · have hf : isHexBytes32 prover = false := by simpa using hhex
      simp only [ProverClient.scanLoop, hf, Bool.false_eq_true, if_false] at h
      have := congrArg Prod.fst h
      simp at this

/-- Reward oracle for which the pooled reward call fails (after exhaustion)
exactly at epoch 1, and every other epoch pays 5 wei. -/
def rcFail : Nat → Option Nat := fun e => if e = 1 then none else some 5

/-- C5: the claim states a single failed epoch query never aborts the whole
scan.  In the tg_bot.js variant it does: at `E = 2`, `L = 2` with the reward
query of epoch 1 failing after pool exhaustion, `ProverClient.scanParticipation`
throws and no `ScanResult` is produced, while the optimized variant completes,
treating that epoch as zero (`totalRewardsWindow = 5`, only epoch 2 counted). -/
theorem C5_counterexample :
    (ProverClient.scanParticipation ("0xab") (fun _ => true) (some 2) rcFail 2).1 =
      Except.error ScanError.exhaustedEndpoints ∧
    okValue (OptimizedProverClient.scanParticipation [] 0 ("0xab") (fun _ => true)
        (some 2) rcFail 2).1 =
      some { currentEpoch := 2, lastEpochParticipated := some 2,
             participatedCountWindow := 1, totalRewardsWindow := 5,
             isActiveNow := true, window := 2 } := by
  constructor <;> rfl

/-- C5 (amended): in the optimized variant every reward-query failure degrades
to a zero reward — for every oracle the scan completes and returns the
aggregation of `(rewardCall e).getD 0` over its window; in the tg_bot.js
variant a completed scan certifies that every reward query of the window
succeeded, i.e. any failed epoch query aborts the whole scan. -/
theorem C5_failure_degrades_to_zero (now : Nat) (prover : String) (addrOk : String → Bool)
    (rc : Nat → Option Nat) (E L : Nat)
    (hhex : isHexBytes32 prover = true) (haddr : addrOk prover = true) :
    okValue (OptimizedProverClient.scanParticipation [] now prover addrOk
        (some E) rc L).1 =
      some (OptimizedProverClient.mkResult E L
        (scanWindow (fun e => (rc e).getD 0) (scannedEpochsOpt E L))) ∧
    (∀ res, okValue (ProverClient.scanParticipation prover addrOk (some E) rc L).1 = some res →
      ∀ e ∈ scannedEpochsServer E L, (rc e).isSome) := by
  constructor
  · rw [scanOpt_ok now prover addrOk rc E L hhex haddr]
    rfl
  · intro res h
    have h2 := okValue_eq_some.1 h
    simp only [ProverClient.scanParticipation] at h2
    rcases hloop : ProverClient.scanLoop prover rc (scannedEpochsServer E L) initAgg
      with ⟨fst, tr⟩
    rw [hloop] at h2
    cases fst with
    | error s => simp at h2
    | ok agg => exact scanLoop_ok_all_some prover rc _ initAgg agg tr hloop

/-- C5 witness: the concrete failing oracle of the counterexample instantiates
the amended theorem — the optimized scan completes with epoch 1 as zero. -/
theorem C5_failure_degrades_to_zero_witness :
    okValue (OptimizedProverClient.scanParticipation [] 0 ("0xab") (fun _ => true)
        (some 2) rcFail 2).1 =
      some (OptimizedProverClient.mkResult 2 2
        (scanWindow (fun e => (rcFail e).getD 0) (scannedEpochsOpt 2 2))) ∧
    (∀ res, okValue (ProverClient.scanParticipation ("0xab") (fun _ => true)
        (some 2) rcFail 2).1 = some res →
      ∀ e ∈ scannedEpochsServer 2 2, (rcFail e).isSome) :=
  C5_failure_degrades_to_zero 0 ("0xab") (fun _ => true) rcFail 2 2 (by decide) rfl

lemma cacheGet_cachePut_self (c : Cache) (now : Nat) (k : String × Nat) (v : ScanResult) :
    cacheGet (cachePut c now k v) now k = some v := by
  unfold cacheGet cachePut
  have hb : (((k, now + CACHE_TTL, v) : (String × Nat) × Nat × ScanResult).1 == k) = true :=
    beq_iff_eq.2 rfl
  simp only [List.find?_cons, hb]
  rw [if_pos (show now < now + CACHE_TTL by unfold CACHE_TTL; omega)]

/-- C6: a cache entry younger than the TTL short-circuits the scan entirely —
the cached `ScanResult` is returned, no chain call at all is issued and the
cache is unchanged; and a successful scan on a cache miss stores its result
under the same `(participant, lookback)` key, where it is immediately
retrievable. -/
theorem C6_cache_short_circuit (c : Cache) (now : Nat) (prover : String)
    (addrOk : String → Bool) (epochCall : Option Nat) (rc : Nat → Option Nat) (L : Nat) :
    (∀ v, cacheGet c now (prover, L) = some v →
       OptimizedProverClient.scanParticipation c now prover addrOk epochCall rc L =
         (Except.ok v, c, [])) ∧
    (∀ res c2 tr, cacheGet c now (prover, L) = none →
       OptimizedProverClient.scanParticipation c now prover addrOk epochCall rc L =
         (Except.ok res, c2, tr) →
       c2 = cachePut c now (prover, L) res ∧ cacheGet c2 now (prover, L) = some res) := by
  constructor
  · intro v hv
    simp only [OptimizedProverClient.scanParticipation, hv]
  · intro res c2 tr hmiss h
    simp only [OptimizedProverClient.scanParticipation, hmiss] at h
    cases epochCall with
    | none =>
      have := congrArg (fun x => x.1) h
      simp at this
    | some E =>
      by_cases hcond : (!(scannedEpochsOpt E L).isEmpty && !isHexBytes32 prover) = true
      · simp only [hcond, if_true] at h
        have := congrArg (fun x => x.1) h
        simp at this
      · have hc2 : (!(scannedEpochsOpt E L).isEmpty && !isHexBytes32 prover) = false := by
          simpa using hcond
        simp only [hc2, Bool.false_eq_true, if_false] at h
        by_cases haddr : addrOk prover = true
        · simp only [haddr, if_true] at h
          have h1 := congrArg (fun x => x.1) h
          have h2 := congrArg (fun x => x.2.1) h
          simp only at h1 h2
          have hres : OptimizedProverClient.mkResult E L
              (scanWindow (fun e => (rc e).getD 0) (scannedEpochsOpt E L)) = res := by
            simpa using h1
          rw [← h2, hres]
          exact ⟨rfl, cacheGet_cachePut_self c now (prover, L) res⟩
        · simp only [Bool.not_eq_true] at haddr
          simp only [haddr] at h
          have := congrArg (fun x => x.1) h
          simp at this

/-- C6 witness: a concrete miss-then-hit pair — the fresh scan stores its
result, and a second scan at the same instant is served from the cache with an
empty chain-call trace. -/
theorem C6_cache_short_circuit_witness :
    ((OptimizedProverClient.scanParticipation [] 0 ("0xab") (fun _ => true)
        (some 2) (fun _ => some 5) 2).2.1 =
      cachePut [] 0 (("0xab"), 2)
        { currentEpoch := 2, lastEpochParticipated := some 2,
          participatedCountWindow := 2, totalRewardsWindow := 10,
          isActiveNow := true, window := 2 } ∧
     cacheGet (OptimizedProverClient.scanParticipation [] 0 ("0xab") (fun _ => true)
        (some 2) (fun _ => some 5) 2).2.1 0 (("0xab"), 2) =
      some { currentEpoch := 2, lastEpochParticipated := some 2,
             participatedCountWindow := 2, totalRewardsWindow := 10,
             isActiveNow := true, window := 2 }) ∧
    OptimizedProverClient.scanParticipation
        (cachePut [] 0 (("0xab"), 2)
          { currentEpoch := 2, lastEpochParticipated := some 2,
            participatedCountWindow := 2, totalRewardsWindow := 10,
            isActiveNow := true, window := 2 })
        0 ("0xab") (fun _ => true) (some 2) (fun _ => some 5) 2 =
      (Except.ok { currentEpoch := 2, lastEpochParticipated := some 2,
                   participatedCountWindow := 2, totalRewardsWindow := 10,
                   isActiveNow := true, window := 2 },
       cachePut [] 0 (("0xab"), 2)
         { currentEpoch := 2, lastEpochParticipated := some 2,
           participatedCountWindow := 2, totalRewardsWindow := 10,
           isActiveNow := true, window := 2 }, []) := by
  constructor
  · exact (C6_cache_short_circuit [] 0 ("0xab") (fun _ => true) (some 2)
      (fun _ => some 5) 2).2
      { currentEpoch := 2, lastEpochParticipated := some 2,
        participatedCountWindow := 2, totalRewardsWindow := 10,
        isActiveNow := true, window := 2 }
      _ _ rfl rfl
  · exact (C6_cache_short_circuit _ 0 ("0xab") (fun _ => true) (some 2)
      (fun _ => some 5) 2).1
      { currentEpoch := 2, lastEpochParticipated := some 2,
        participatedCountWindow := 2, totalRewardsWindow := 10,
        isActiveNow := true, window := 2 } rfl

lemma scannedEpochsServer_cons (E L : Nat) :
    scannedEpochsServer E L = E :: (List.range (E - (E - L))).map (fun i => E - (i + 1)) := by
  unfold scannedEpochsServer
  rw [List.range_succ_eq_map, List.map_cons, List.map_map]
  rw [Nat.sub_zero]
  rfl

lemma scanServer_badaddr (prover : String) (addrOk : String → Bool)
    (rc : Nat → Option Nat) (E L : Nat)
    (hall : ∀ e ∈ scannedEpochsServer E L, (rc e).isSome)
    (hhex : isHexBytes32 prover = true) (haddr : addrOk prover = false) :
    ProverClient.scanParticipation prover addrOk (some E) rc L =
      (Except.error ScanError.invalidAddress,
       ChainCall.currentEpoch :: (scannedEpochsServer E L).map ChainCall.reward) := by
  simp only [ProverClient.scanParticipation,
    scanLoop_success prover rc _ initAgg hhex hall, haddr, Bool.false_eq_true, if_false]

lemma scanOpt_badaddr (c : Cache) (now : Nat) (prover : String) (addrOk : String → Bool)
    (rc : Nat → Option Nat) (E L : Nat)
    (hmiss : cacheGet c now (prover, L) = none)
    (hhex : isHexBytes32 prover = true) (haddr : addrOk prover = false) :
    OptimizedProverClient.scanParticipation c now prover addrOk (some E) rc L =
      (Except.error ScanError.invalidAddress, c,
       ChainCall.currentEpoch :: (scannedEpochsOpt E L).map ChainCall.reward) := by
  simp only [OptimizedProverClient.scanParticipation, hmiss, hhex, Bool.not_true,
    Bool.and_false, Bool.false_eq_true, if_false, haddr]

/-- C9: the claim states a malformed participant address is rejected before
any network call, the current-epoch fetch included.  It is not, in either of
the two ways an address can be malformed.  The non-hex participant `"zzz"`
makes both variants fetch the current epoch first (the chain-call trace is
`[currentEpoch]`, not empty) and only then throw while encoding the first
reward call.  Worse, the hex-encodable but invalid participant `"0x1234"`
(accepted by `zeroPadValue`, rejected by `getAddress` — as is any 40-hex-digit
address with a bad checksum) makes the tg_bot.js variant issue the entire
window of reward queries before `getAddress` throws at result building. -/
theorem C9_counterexample :
    ((ProverClient.scanParticipation ("zzz") (fun _ => false) (some 5)
        (fun _ => some 1) 3).1 = Except.error ScanError.invalidBytes ∧
     (ProverClient.scanParticipation ("zzz") (fun _ => false) (some 5)
        (fun _ => some 1) 3).2 = [ChainCall.currentEpoch]) ∧
    ((OptimizedProverClient.scanParticipation [] 0 ("zzz") (fun _ => false) (some 5)
        (fun _ => some 1) 3).1 = Except.error ScanError.invalidBytes ∧
     (OptimizedProverClient.scanParticipation [] 0 ("zzz") (fun _ => false) (some 5)
        (fun _ => some 1) 3).2.2 = [ChainCall.currentEpoch]) ∧
    ((ProverClient.scanParticipation ("0x1234") (fun _ => false) (some 5)
        (fun _ => some 1) 3).1 = Except.error ScanError.invalidAddress ∧
     (ProverClient.scanParticipation ("0x1234") (fun _ => false) (some 5)
        (fun _ => some 1) 3).2 =
       [ChainCall.currentEpoch, ChainCall.reward 5, ChainCall.reward 4,
        ChainCall.reward 3, ChainCall.reward 2]) := by
  exact ⟨⟨rfl, rfl⟩, ⟨rfl, rfl⟩, ⟨rfl, rfl⟩⟩

/-- C9 (amended): a malformed participant (one `ethers.getAddress` rejects,
modelled `addrOk prover = false`) makes the scan fail in both variants, but
never before any network call: the current-epoch query is always issued
first.  When the address also fails the `zeroPadValue` hex-bytes encoding,
the rejection precedes every reward query and the failing trace is exactly
`[currentEpoch]`; when the address is hex-encodable (e.g. 40 hex digits with
a bad checksum), the tg_bot.js variant issues its entire window of reward
queries (given they succeed) and the optimized variant its whole window
before `getAddress` throws at result building. -/
theorem C9_reject_after_epoch_fetch (now : Nat) (c : Cache) (prover : String)
    (addrOk : String → Bool) (rc : Nat → Option Nat) (E L : Nat)
    (haddr : addrOk prover = false)
    (hmiss : cacheGet c now (prover, L) = none) :
    (isHexBytes32 prover = false →
       (∃ err, ProverClient.scanParticipation prover addrOk (some E) rc L =
          (Except.error err, [ChainCall.currentEpoch])) ∧
       (∃ err, OptimizedProverClient.scanParticipation c now prover addrOk (some E) rc L =
          (Except.error err, c, [ChainCall.currentEpoch]))) ∧
    (isHexBytes32 prover = true →
       ((∀ e ∈ scannedEpochsServer E L, (rc e).isSome) →
          ProverClient.scanParticipation prover addrOk (some E) rc L =
            (Except.error ScanError.invalidAddress,
             ChainCall.currentEpoch :: (scannedEpochsServer E L).map ChainCall.reward)) ∧
       OptimizedProverClient.scanParticipation c now prover addrOk (some E) rc L =
         (Except.error ScanError.invalidAddress, c,
          ChainCall.currentEpoch :: (scannedEpochsOpt E L).map ChainCall.reward)) := by
  constructor
  · intro hhex
    constructor
    · refine ⟨ScanError.invalidBytes, ?_⟩
      simp only [ProverClient.scanParticipation, scannedEpochsServer_cons,
        scanLoop_badhex _ _ _ _ _ hhex]
    · by_cases hemp : (scannedEpochsOpt E L).isEmpty = true
      · refine ⟨ScanError.invalidAddress, ?_⟩
        have hnil : scannedEpochsOpt E L = [] := List.isEmpty_iff.1 hemp
        simp only [OptimizedProverClient.scanParticipation, hmiss, hnil, List.isEmpty_nil,
          Bool.not_true, Bool.false_and, Bool.false_eq_true, if_false, haddr, List.map_nil]
      · refine ⟨ScanError.invalidBytes, ?_⟩
        have hcond : (!(scannedEpochsOpt E L).isEmpty && !isHexBytes32 prover) = true := by
          rw [hhex]
          simp only [Bool.not_false, Bool.and_true]
          simpa using hemp
        simp only [OptimizedProverClient.scanParticipation, hmiss, hcond, if_true]
  · intro hhex
    exact ⟨fun hall => scanServer_badaddr prover addrOk rc E L hall hhex haddr,
           scanOpt_badaddr c now prover addrOk rc E L hmiss hhex haddr⟩

/-- C9 witness: the amended theorem applied at both kinds of malformed input
with `E = 5`, `L = 3` and an empty cache — the non-hex address `"zzz"`
(trace exactly `[currentEpoch]`) and the hex-encodable invalid address
`"0x1234"` (the full window of reward queries is issued before the failure). -/
theorem C9_reject_after_epoch_fetch_witness :
    ((∃ err, ProverClient.scanParticipation ("zzz") (fun _ => false) (some 5)
        (fun _ => some 1) 3 = (Except.error err, [ChainCall.currentEpoch])) ∧
     (∃ err, OptimizedProverClient.scanParticipation [] 0 ("zzz") (fun _ => false)
        (some 5) (fun _ => some 1) 3 =
        (Except.error err, [], [ChainCall.currentEpoch]))) ∧
    (ProverClient.scanParticipation ("0x1234") (fun _ => false) (some 5)
        (fun _ => some 1) 3 =
      (Except.error ScanError.invalidAddress,
       ChainCall.currentEpoch :: (scannedEpochsServer 5 3).map ChainCall.reward) ∧
     OptimizedProverClient.scanParticipation [] 0 ("0x1234") (fun _ => false)
        (some 5) (fun _ => some 1) 3 =
      (Except.error ScanError.invalidAddress, [],
       ChainCall.currentEpoch :: (scannedEpochsOpt 5 3).map ChainCall.reward)) :=
  ⟨(C9_reject_after_epoch_fetch 0 [] ("zzz") (fun _ => false) (fun _ => some 1) 5 3
      rfl rfl).1 (by decide),
   ⟨((C9_reject_after_epoch_fetch 0 [] ("0x1234") (fun _ => false) (fun _ => some 1) 5 3
      rfl rfl).2 (by decide)).1 (fun e he => rfl),
    ((C9_reject_after_epoch_fetch 0 [] ("0x1234") (fun _ => false) (fun _ => some 1) 5 3
      rfl rfl).2 (by decide)).2⟩⟩

/-- C4: the claim states every logical pool call tries each endpoint at most
once and surfaces a failure only after all N endpoints have been tried.  This
holds for `RpcPool.safeCall` (tg_bot.js) but not for
`OptimizedRpcPool.callWithRetry` (part_000), whose budget is the hardcoded
`retries = 3` regardless of N: with 2 endpoints all failing, endpoint 0 is
attempted twice (`[0, 1, 0]`); with 5 endpoints where only endpoint 3
succeeds, the call fails after attempts `[0, 1, 2]` without ever trying the
endpoint that would have succeeded. -/
theorem C4_counterexample :
    (OptimizedRpcPool.callWithRetry (fun _ => (none : Option Nat)) 2 0).2 = [0, 1, 0] ∧
    (OptimizedRpcPool.callWithRetry (fun j => if j = 3 then some 7 else none) 5 0).1 =
      none ∧
    (OptimizedRpcPool.callWithRetry (fun j => if j = 3 then some 7 else none) 5 0).2 =
      [0, 1, 2] ∧
    (fun j => if j = 3 then (some 7 : Option Nat) else none) 3 = some 7 := by
  exact ⟨rfl, rfl, rfl, rfl⟩

/-- C4 (amended): for `RpcPool.safeCall` with `N ≥ 1` endpoints and a current
index `i < N`, each endpoint is attempted at most once per logical call
(the attempted indices are pairwise distinct, at most N of them, rotating
round-robin); when every endpoint fails the call surfaces the failure having
attempted all N endpoints; and a successful call returns a result produced by
one of the attempted endpoints.  `OptimizedRpcPool.callWithRetry` satisfies
none of this beyond its fixed budget of 3 attempts. -/
theorem C4_safeCall_exhaustion {R : Type} (ep : Nat → Option R) (N i : Nat)
    (hN : 0 < N) (hi : i < N) :
    (RpcPool.safeCall ep N i).2.Nodup ∧
    (RpcPool.safeCall ep N i).2.length ≤ N ∧
    ((∀ j, j < N → ep j = none) →
       (RpcPool.safeCall ep N i).1 = none ∧
       ∀ j, j < N → j ∈ (RpcPool.safeCall ep N i).2) ∧
    (∀ v, (RpcPool.safeCall ep N i).1 = some v →
       ∃ j, j ∈ (RpcPool.safeCall ep N i).2 ∧ ep j = some v) := by
  unfold RpcPool.safeCall
  have hlen : (poolCall ep N i N).2.length ≤ N := poolCall_tried_len ep N N i
  have htried := poolCall_tried_eq ep N hN N i hi
  have hnodup : (poolCall ep N i N).2.Nodup := by
    rw [htried]
    exact range_map_mod_nodup i N _ hlen
  refine ⟨hnodup, hlen, ?_, ?_⟩
  · intro hall
    have hnone : (poolCall ep N i N).1 = none := poolCall_all_none ep N hall hN N i hi
    refine ⟨hnone, ?_⟩
    have hfull : (poolCall ep N i N).2.length = N := poolCall_none_len ep N N i hnone
    intro j hj
    have hsub : (poolCall ep N i N).2.toFinset ⊆ Finset.range N := by
      intro x hx
      rw [List.mem_toFinset, htried] at hx
      rcases List.mem_map.1 hx with ⟨t, _, rfl⟩
      exact Finset.mem_range.2 (Nat.mod_lt _ hN)
    have hcard : (Finset.range N).card ≤ (poolCall ep N i N).2.toFinset.card := by
      rw [Finset.card_range, List.toFinset_card_of_nodup hnodup, hfull]
    have heq := Finset.eq_of_subset_of_card_le hsub hcard
    have hjmem : j ∈ (poolCall ep N i N).2.toFinset := by
      rw [heq]
      exact Finset.mem_range.2 hj
    exact List.mem_toFinset.1 hjmem
  · intro v hv
    exact poolCall_ok_mem ep N N i hv

/-- C4 witness: three endpoints, the first two failing — the call succeeds via
endpoint 2 after the distinct attempts `[0, 1, 2]`. -/
theorem C4_safeCall_exhaustion_witness :
    (RpcPool.safeCall (fun j => if j = 2 then some 5 else (none : Option Nat)) 3 0).2.Nodup ∧
    (RpcPool.safeCall (fun j => if j = 2 then some 5 else (none : Option Nat)) 3 0).2.length ≤ 3 ∧
    ((∀ j, j < 3 → (fun j => if j = 2 then some 5 else (none : Option Nat)) j = none) →
       (RpcPool.safeCall (fun j => if j = 2 then some 5 else (none : Option Nat)) 3 0).1 = none ∧
       ∀ j, j < 3 →
         j ∈ (RpcPool.safeCall (fun j => if j = 2 then some 5 else (none : Option Nat)) 3 0).2) ∧
    (∀ v, (RpcPool.safeCall (fun j => if j = 2 then some 5 else (none : Option Nat)) 3 0).1 =
        some v →
       ∃ j, j ∈ (RpcPool.safeCall (fun j => if j = 2 then some 5 else (none : Option Nat)) 3 0).2 ∧
         (fun j => if j = 2 then some 5 else (none : Option Nat)) j = some v) :=
  C4_safeCall_exhaustion (fun j => if j = 2 then some 5 else none) 3 0
    (by decide) (by decide)

lemma sweepEntry_fst (E : Nat) (sr : Option (Option Nat)) (en : WatchEntry) :
    (sweepEntry E sr en).1 = shouldAlert E sr en := by
  cases sr with
  | none => rfl
  | some lp =>
    simp only [sweepEntry, shouldAlert]
    by_cases h : 6 ≤ idleEpochs E lp ∧ en.lastNotifiedEpoch ≠ some E
    · rw [if_pos h]
      simp [h.1, h.2]
    · rw [if_neg h]
      rcases not_and_or.1 h with h1 | h2
      · simp [h1]
      · have h3 := not_not.1 h2
        simp [h3]

lemma sweepEntry_snd (E : Nat) (sr : Option (Option Nat)) (en : WatchEntry) :
    (sweepEntry E sr en).2 = if shouldAlert E sr en
      then { en with lastNotifiedEpoch := some E } else en := by
  cases sr with
  | none => rfl
  | some lp =>
    simp only [sweepEntry, shouldAlert]
    by_cases h : 6 ≤ idleEpochs E lp ∧ en.lastNotifiedEpoch ≠ some E
    · rw [if_pos h]
      simp [h.1, h.2]
    · rw [if_neg h]
      rcases not_and_or.1 h with h1 | h2
      · simp [h1]
      · have h3 := not_not.1 h2
        simp [h3]

lemma shouldAlert_notified (E : Nat) (sr : Option (Option Nat)) (en : WatchEntry)
    (h : en.lastNotifiedEpoch = some E) : shouldAlert E sr en = false := by
  cases sr with
  | none => rfl
  | some lp => simp [shouldAlert, h]

lemma checkWatchlist_alerts (E : Nat) (scan : String → Option (Option Nat))
    (wl : List (String × WatchEntry)) :
    (checkWatchlist E scan wl).2 =
      (wl.filter (fun p => shouldAlert E (scan p.2.prover) p.2)).map (fun p => p.1) := by
  unfold checkWatchlist
  simp only
  congr 1
  refine List.filter_congr ?_
  intro p _
  rw [sweepEntry_fst]

lemma checkWatchlist_state (E : Nat) (scan : String → Option (Option Nat))
    (wl : List (String × WatchEntry)) :
    (checkWatchlist E scan wl).1 =
      wl.map (fun p => (p.1, if shouldAlert E (scan p.2.prover) p.2
        then { p.2 with lastNotifiedEpoch := some E } else p.2)) := by
  unfold checkWatchlist
  simp only
  refine List.map_congr_left ?_
  intro p _
  rw [sweepEntry_snd]

/-- C3: the claim states that in every scheduler sweep an alert fires iff the
idle count reaches the threshold and `lastNotifiedEpoch != currentEpoch`, so
no subscriber ever receives two alerts for the same participant at the same
`currentEpoch`.  The bot's monitoring loop `monitorOnce` (tg_bot.js) keeps no
`lastNotifiedEpoch` state at all: two sweeps at the same `currentEpoch = 100`
with a participant idle for 10 epochs (threshold 6) deliver the same idle
alert to the same subscriber twice. -/
theorem C3_counterexample :
    (monitorOnce 6 100 (fun _ => some (some 90)) [(("c"), [("p")])] ++
     monitorOnce 6 100 (fun _ => some (some 90)) [(("c"), [("p")])]).count
      (BotMessage.idleAlert ("c") ("p")) = 2 := by
  rfl

/-- C3 (amended): the server scheduler `checkWatchlist` (part_000) satisfies
the claim — in a sweep at epoch `E` an alert is emitted for an entry iff its
scan succeeded, its idle-epoch count is at least 6 and
`lastNotifiedEpoch ≠ E`; emitting sets `lastNotifiedEpoch = E`; hence under
the JS-Map invariant that chatIds are unique, no chatId alerted in one sweep
is alerted again by a following sweep at the same `currentEpoch`.  The bot's
`monitorOnce` loop has no such dedup and re-alerts on every sweep. -/
theorem C3_checkWatchlist_dedup (E : Nat) (scan : String → Option (Option Nat))
    (wl : List (String × WatchEntry)) :
    (checkWatchlist E scan wl).2 =
        (wl.filter (fun p => shouldAlert E (scan p.2.prover) p.2)).map (fun p => p.1) ∧
    (checkWatchlist E scan wl).1 =
        wl.map (fun p => (p.1, if shouldAlert E (scan p.2.prover) p.2
          then { p.2 with lastNotifiedEpoch := some E } else p.2)) ∧
    ((wl.map (fun p => p.1)).Nodup →
       ∀ (scan2 : String → Option (Option Nat)) (cid : String),
         cid ∈ (checkWatchlist E scan wl).2 →
         cid ∉ (checkWatchlist E scan2 (checkWatchlist E scan wl).1).2) := by
  refine ⟨checkWatchlist_alerts E scan wl, checkWatchlist_state E scan wl, ?_⟩
  intro hnd scan2 cid hin hin2
  rw [checkWatchlist_alerts] at hin
  rcases List.mem_map.1 hin with ⟨p, hpf, hp1⟩
  have hpw : p ∈ wl := (List.mem_filter.1 hpf).1
  have hpa : shouldAlert E (scan p.2.prover) p.2 = true := (List.mem_filter.1 hpf).2
  rw [checkWatchlist_alerts] at hin2
  rcases List.mem_map.1 hin2 with ⟨q, hqf, hq1⟩
  have hqw : q ∈ (checkWatchlist E scan wl).1 := (List.mem_filter.1 hqf).1
  have hqa : shouldAlert E (scan2 q.2.prover) q.2 = true := (List.mem_filter.1 hqf).2
  have hkeys : (((checkWatchlist E scan wl).1).map (fun p => p.1)).Nodup := by
    rw [checkWatchlist_state, List.map_map]
    exact hnd
  have hq2 : (cid, q.2) ∈ (checkWatchlist E scan wl).1 := by
    rw [← hq1]
    exact hqw
  have hpmem : (cid, { p.2 with lastNotifiedEpoch := some E }) ∈
      (checkWatchlist E scan wl).1 := by
    rw [checkWatchlist_state]
    refine List.mem_map.2 ⟨p, hpw, ?_⟩
    rw [hpa]
    simp [hp1]
  have hq2eq : q.2 = { p.2 with lastNotifiedEpoch := some E } :=
    key_unique hkeys hq2 hpmem
  rw [hq2eq, shouldAlert_notified E _ _ rfl] at hqa
  cases hqa

/-- Scan oracle of the C3 witness: every scanned prover last participated at
epoch 90. -/
def scanW : String → Option (Option Nat) := fun _ => some (some 90)

/-- Watchlist of the C3 witness: one subscriber watching one prover, never yet
notified. -/
def wlW : List (String × WatchEntry) := [(("c"), ⟨("p"), none⟩)]

/-- C3 witness: at `E = 100` the subscriber is alerted once, and a second
sweep at the same epoch over the updated watchlist does not alert it again. -/
theorem C3_checkWatchlist_dedup_witness :
    ("c") ∈ (checkWatchlist 100 scanW wlW).2 ∧
    ("c") ∉ (checkWatchlist 100 scanW (checkWatchlist 100 scanW wlW).1).2 := by
  refine ⟨by decide, ?_⟩
  exact (C3_checkWatchlist_dedup 100 scanW wlW).2.2 (by decide) scanW ("c") (by decide)

/-- C10: the claim states `getActiveProvers` counts the addresses whose exact
integer net balance (Staked minus Withdrawn minus Slashed) is strictly
positive.  The code converts every `uint256` amount through JS `Number`
(IEEE-754 double) and balances in doubles: with one address staking
`2^53 + 1` and withdrawing `2^53`, the exact net balance is `1 > 0` (the
claim counts 1 active prover) but `Number(2^53 + 1)` rounds to `2^53`
(ties-to-even), the computed balance is `0`, and the code returns 0. -/
theorem C10_counterexample :
    getActiveProvers [(("0xA"), 2 ^ 53 + 1)] [(("0xa"), 2 ^ 53)] [] = 0 ∧
    claimActiveCount [(("0xA"), 2 ^ 53 + 1)] [(("0xa"), 2 ^ 53)] [] = 1 := by
  constructor <;> rfl

/-- C10 (amended): `getActiveProvers` returns the number of distinct
lowercased addresses whose net balance computed in IEEE-754 double-precision
arithmetic — `Number` coercion of each event amount, then sequential
addition of Staked and subtraction of Withdrawn and ProverSlashed amounts,
each operation rounded to nearest double — is strictly positive; addresses
with non-positive computed balance are not counted.  This coincides with the
claimed exact-integer criterion whenever every amount and every intermediate
balance stays below `2^53`, where doubles are exact. -/
theorem C10_active_provers_js (staked withdrawn slashed : List (String × Nat)) :
    getActiveProvers staked withdrawn slashed =
      (eventAddrs staked withdrawn slashed).countP
        (fun a => decide (0 < jsNet a staked withdrawn slashed)) ∧
    (∀ z : Int, z.natAbs < 2 ^ 53 → flInt z = z) := by
  constructor
  · simp only [getActiveProvers]
    set m3 := slashed.foldl (stepEvent jsSub)
      (withdrawn.foldl (stepEvent jsSub) (staked.foldl (stepEvent jsAdd) [])) with hm3
    rw [← List.countP_eq_length_filter]
    have hnodup : (m3.map (fun p => p.1)).Nodup := by
      rw [hm3]
      refine keys_foldl_nodup _ _ _ (keys_foldl_nodup _ _ _ (keys_foldl_nodup _ _ _ ?_))
      simp
    rw [countP_values m3 hnodup]
    have hget : ∀ a, (mapGet m3 a).getD 0 = jsNet a staked withdrawn slashed := by
      intro a
      rw [hm3, foldl_stepEvent_get, foldl_stepEvent_get, foldl_stepEvent_get]
      rfl
    have hcongr : (m3.map (fun q => q.1)).countP
          (fun a => decide (0 < (mapGet m3 a).getD 0)) =
        (m3.map (fun q => q.1)).countP
          (fun a => decide (0 < jsNet a staked withdrawn slashed)) := by
      refine List.countP_congr ?_
      intro a _
      rw [hget a]
    rw [hcongr]
    have hperm : (m3.map (fun q => q.1)).Perm (eventAddrs staked withdrawn slashed) := by
      unfold eventAddrs
      rw [List.perm_ext_iff_of_nodup hnodup (List.nodup_dedup _)]
      intro a
      rw [hm3, keys_foldl_mem, keys_foldl_mem, keys_foldl_mem]
      rw [List.mem_dedup]
      simp only [List.map_nil, List.not_mem_nil, false_or, List.map_append,
        List.mem_append]
    exact hperm.countP_eq _
  · intro z hz
    have h1 : flNat z.natAbs = z.natAbs := by
      unfold flNat
      rw [if_pos hz]
    unfold flInt
    by_cases hneg : z < 0
    · rw [if_pos hneg, h1]
      omega
    · rw [if_neg hneg, h1]
      omega

/-- C10 witness: the amended theorem instantiated at a small event log (all
amounts exactly representable), and double-rounding exactness at `7`. -/
theorem C10_active_provers_js_witness :
    getActiveProvers [(("0xA"), 5)] [(("0xa"), 2)] [] =
      (eventAddrs [(("0xA"), 5)] [(("0xa"), 2)] []).countP
        (fun a => decide (0 < jsNet a [(("0xA"), 5)] [(("0xa"), 2)] [])) ∧
    flInt 7 = 7 :=
  ⟨(C10_active_provers_js [(("0xA"), 5)] [(("0xa"), 2)] []).1,
   (C10_active_provers_js [] [] []).2 7 (by decide)⟩
